import Mathlib

/-!
Verification of the ProxyService batch proxy server.

The development shallowly embeds the JavaScript sources (`server.js` and the
two unnamed variants, a worker-pool dispatcher with per-item retry): batch
items, per-item request execution with validation / timeout / transport-error
mapping, 429 retry with exponential backoff, JSON body augmentation with a
`requestKey` field, result formatting keyed by `requestId`, and the
worker-pool dispatch loop as a small-step transition system over a shared
index cursor.  External collaborators (the Node `URL` parser, `JSON.parse`,
and the network) are modelled as oracle parameters.
-/

namespace ProxyService

/-! ## JSON values and bodies -/

/-- A JavaScript JSON value, as produced by a successful `JSON.parse`. -/
inductive Js where
  | null : Js
  | bool (b : Bool) : Js
  | num (n : Int) : Js
  | str (s : String) : Js
  | arr (elems : List Js) : Js
  | obj (fields : List (String × Js)) : Js

/-- A response body: either the raw text, or a structured JSON value
(after the augmentation step replaced `finalBody` with the parsed object). -/
inductive BodyVal where
  | str (s : String) : BodyVal
  | json (j : Js) : BodyVal

/-! ## Data model -/

/-- The per-item outcome object the JS code resolves with
(`{requestId, status, headers?, body?, error?}`). -/
structure BatchResult where
  requestId : String
  status : Nat
  headers : Option (List (String × String))
  body : Option BodyVal
  error : Option String

/-- One submitted batch item; absent JS fields are `none`. -/
structure BatchItem where
  requestId : Option String
  url : Option String
  method : Option String
  headers : Option (List (String × String))

/-- The out-of-range fallback item (never reached at in-range indices). -/
def defaultItem : BatchItem :=
  { requestId := none, url := none, method := none, headers := none }

/-- JavaScript truthiness of an optional string field: `undefined` and the
empty string are falsy, every other string is truthy. -/
def jsTruthy : Option String → Bool
  | none => false
  | some s => !s.isEmpty

/-- The JS expression `item.requestId || 'unknown'`. -/
def orUnknown : Option String → String
  | none => "unknown"
  | some s => if s.isEmpty then "unknown" else s

/-- Components of a parsed URL (`new URL(url)`); the parser itself is a
Node built-in and enters the model as an oracle returning this record. -/
structure ParsedUrl where
  protocolIsHttps : Bool
  hostname : String
  port : Option Nat
  path : String

/-- How the network behaves for one outbound attempt: a response arrives,
the request errors, the timeout fires, or the request machinery throws. -/
inductive NetBehavior where
  | responds (status : Nat) (headers : List (String × String)) (body : String) : NetBehavior
  | fails (msg : String) : NetBehavior
  | timesOut : NetBehavior
  | throws (msg : String) : NetBehavior

/-- Outcome of `processBatchItem`: the resolved result, whether the network
request was issued, and whether the in-flight request was aborted
(`proxyReq.destroy()` in the timeout handler). -/
structure ExecOutcome where
  result : BatchResult
  networkCalled : Bool
  aborted : Bool

/-! ## Body augmentation (`requestKey` insertion) -/

/-- JS property assignment `obj[k] = v` on an object literal: an existing
key keeps its position and is overwritten, a new key is appended. -/
def setField : List (String × Js) → String → Js → List (String × Js)
  | [], k, v => [(k, v)]
  | (k', v') :: rest, k, v =>
      if k' = k then (k, v) :: rest else (k', v') :: setField rest k v

/-- The JS test `parsedBody && typeof parsedBody === 'object' &&
!Array.isArray(parsedBody)`: only a (non-null, non-array) object passes. -/
def isPlainJsObject : Js → Bool
  | Js.obj _ => true
  | _ => false

/-- Assignment `parsedBody.requestKey = requestId` on a parsed value. -/
def jsSetKey (j : Js) (k : String) (v : Js) : Js :=
  match j with
  | Js.obj fields => Js.obj (setField fields k v)
  | other => other

/-- The response-body augmentation performed in the `end` handler of
`processBatchItem` (variants part_000/part_001): on a 2xx status, try to
parse the body; if it is a plain JSON object, add `requestKey = requestId`;
otherwise leave the raw body unchanged.  `jsonParse` returning `none`
models the `JSON.parse` throw that the code catches and ignores. -/
def augmentBody (jsonParse : String → Option Js) (status : Nat) (body : String)
    (requestId : String) : BodyVal :=
  if 200 ≤ status ∧ status < 300 then
    match jsonParse body with
    | some j =>
        if isPlainJsObject j then BodyVal.json (jsSetKey j "requestKey" (Js.str requestId))
        else BodyVal.str body
    | none => BodyVal.str body
  else BodyVal.str body

/-! ## The per-item executor `processBatchItem` -/

/-- One batch item's processing (`processBatchItem`): validate `requestId`
and `url`, parse the URL, then issue the request whose fate is given by the
`net` oracle.  An `Except.error` models the promise rejecting with a thrown
fault (caught by the retry wrapper). -/
def processBatchItem (parseUrl : String → Except String ParsedUrl)
    (jsonParse : String → Option Js) (net : NetBehavior) (item : BatchItem) :
    Except String ExecOutcome :=
  if jsTruthy item.requestId = false then
    Except.ok ⟨{ requestId := orUnknown item.requestId, status := 400,
                 headers := none, body := none,
                 error := some "Missing requestId field" }, false, false⟩
  else
    if jsTruthy item.url = false then
      Except.ok ⟨{ requestId := item.requestId.getD "", status := 400, headers := none,
                   body := none, error := some "Missing url field" }, false, false⟩
    else
      match parseUrl (item.url.getD "") with
      | Except.error emsg =>
          Except.ok ⟨{ requestId := item.requestId.getD "", status := 400, headers := none,
                       body := none,
                       error := some ("Invalid URL: " ++ emsg) }, false, false⟩
      | Except.ok _ =>
          match net with
          | NetBehavior.throws msg => Except.error msg
          | NetBehavior.responds st hs b =>
              Except.ok ⟨{ requestId := item.requestId.getD "", status := st,
                           headers := some hs,
                           body := some (augmentBody jsonParse st b (item.requestId.getD "")),
                           error := none }, true, false⟩
          | NetBehavior.fails msg =>
              Except.ok ⟨{ requestId := item.requestId.getD "", status := 502, headers := none,
                           body := none,
                           error := some ("Proxy error: " ++ msg) }, true, false⟩
          | NetBehavior.timesOut =>
              Except.ok ⟨{ requestId := item.requestId.getD "", status := 504, headers := none,
                           body := none,
                           error := some "Request timeout" }, true, true⟩

/-! ## Retry with exponential backoff -/

/-- The inlined retry decision `result.status === 429 && attempt <= MAX_RETRIES`
(the code's `attempt` counter is 1-based, so this retries after attempts
`1 .. maxRetries` and never after attempt `maxRetries + 1`). -/
def shouldRetry (result : BatchResult) (attempt : Nat) (maxRetries : Nat) : Bool :=
  decide (result.status = 429 ∧ attempt ≤ maxRetries)

/-- `processBatchItemWithRetry`: run `processBatchItem`; on a 429 retry up
to `maxRetries` times; a thrown fault is caught and converted to a 500
result carrying the fault message.  The per-attempt network behaviour is
`net attempt`. -/
def processBatchItemWithRetry (parseUrl : String → Except String ParsedUrl)
    (jsonParse : String → Option Js) (net : Nat → NetBehavior) (item : BatchItem)
    (maxRetries : Nat) (attempt : Nat) : BatchResult :=
  match processBatchItem parseUrl jsonParse (net attempt) item with
  | Except.error msg =>
      { requestId := item.requestId.getD "", status := 500, headers := none, body := none,
        error := some ("Processing error: " ++ msg) }
  | Except.ok out =>
      if h : out.result.status = 429 ∧ attempt ≤ maxRetries then
        processBatchItemWithRetry parseUrl jsonParse net item maxRetries (attempt + 1)
      else out.result
termination_by maxRetries + 1 - attempt
decreasing_by omega

/-- Number of `processBatchItem` invocations made by the retry loop. -/
def retryInvocations (parseUrl : String → Except String ParsedUrl)
    (jsonParse : String → Option Js) (net : Nat → NetBehavior) (item : BatchItem)
    (maxRetries : Nat) (attempt : Nat) : Nat :=
  match processBatchItem parseUrl jsonParse (net attempt) item with
  | Except.error _ => 1
  | Except.ok out =>
      if h : out.result.status = 429 ∧ attempt ≤ maxRetries then
        1 + retryInvocations parseUrl jsonParse net item maxRetries (attempt + 1)
      else 1
termination_by maxRetries + 1 - attempt
decreasing_by omega

/-- Trace of backoff delays slept by the retry loop, in order: each retry
scheduled at attempt `a` first sleeps `RETRY_DELAY_BASE * Math.pow(2, attempt - 1)`
milliseconds. -/
def retryDelays (parseUrl : String → Except String ParsedUrl)
    (jsonParse : String → Option Js) (net : Nat → NetBehavior) (item : BatchItem)
    (baseDelay : Nat) (maxRetries : Nat) (attempt : Nat) : List Nat :=
  match processBatchItem parseUrl jsonParse (net attempt) item with
  | Except.error _ => []
  | Except.ok out =>
      if h : out.result.status = 429 ∧ attempt ≤ maxRetries then
        baseDelay * 2 ^ (attempt - 1) ::
          retryDelays parseUrl jsonParse net item baseDelay maxRetries (attempt + 1)
      else []
termination_by maxRetries + 1 - attempt
decreasing_by omega

/-! ## Result formatting (`handleBatchRequest`) -/

/-- One entry of the serialized batch response
(`{status, headers, body, error}`). -/
structure Formatted where
  status : Nat
  headers : List (String × String)
  body : BodyVal
  error : Option String

/-- The JS expression `result.error || null` (an absent or empty message
becomes `null`). -/
def jsOrNull : Option String → Option String
  | none => none
  | some s => if s.isEmpty then none else some s

/-- Formatting of one result for the response object:
`{status: r.status, headers: r.headers || {}, body: r.body || '', error: r.error || null}`. -/
def formatResult (r : BatchResult) : Formatted :=
  { status := r.status, headers := r.headers.getD [],
    body := r.body.getD (BodyVal.str ""), error := jsOrNull r.error }

/-- JS object assignment `formattedResults[k] = v`: overwrite in place or
append. -/
def jsObjSet : List (String × Formatted) → String → Formatted → List (String × Formatted)
  | [], k, v => [(k, v)]
  | (k', v') :: rest, k, v =>
      if k' = k then (k, v) :: rest else (k', v') :: jsObjSet rest k v

/-- Key lookup in the response object. -/
def jsLookup : List (String × Formatted) → String → Option Formatted
  | [], _ => none
  | (k', v) :: rest, k => if k' = k then some v else jsLookup rest k

/-- The `results.forEach(result => formattedResults[result.requestId] = ...)`
loop of `handleBatchRequest`. -/
def formatResults (rs : List BatchResult) : List (String × Formatted) :=
  rs.foldl (fun m r => jsObjSet m r.requestId (formatResult r)) []

/-- The last result in the list whose `requestId` equals `k` (the one whose
formatted value survives the overwrites). -/
def lastWith (rs : List BatchResult) (k : String) : Option BatchResult :=
  match rs with
  | [] => none
  | r :: rest =>
      match lastWith rest k with
      | some r' => some r'
      | none => if r.requestId = k then some r else none

/-! ## The worker-pool dispatcher `processBatchWithLimit`

The JS code starts `Math.min(maxConcurrency, batchItems.length)` async
workers over a shared cursor `index`; each worker atomically claims
`currentIndex = index++` (no `await` between test and increment), awaits the
item's processing, and writes `results[currentIndex] = result`.  We model
this as a small-step transition system: a scheduler interleaves the workers'
claim / finish / termination steps arbitrarily. -/

/-- A worker's position in its loop: about to test the cursor, awaiting the
item it claimed, or terminated. -/
inductive WStatus where
  | idle : WStatus
  | working (i : Nat) : WStatus
  | done : WStatus
deriving DecidableEq

/-- Dispatcher state: the shared cursor, each worker's loop position, the
(sparse) results array, and a history counter recording how many times each
index has been claimed. -/
structure DState where
  cursor : Nat
  workers : Nat → WStatus
  results : Nat → Option BatchResult
  claimCount : Nat → Nat

/-- The state when the workers are started: cursor at 0, every worker idle,
no results, nothing claimed. -/
def initState : DState :=
  { cursor := 0, workers := fun _ => WStatus.idle,
    results := fun _ => none, claimCount := fun _ => 0 }

/-- One scheduler step of the dispatcher with `n` items, `W` workers, and
`f i` the result item `i`'s processing eventually resolves with:
`claim` is the atomic `currentIndex = index++` after a successful
`index < batchItems.length` test, `finish` is the await completing and the
write `results[currentIndex] = result`, and `retire` is a worker whose
cursor test failed leaving its loop. -/
inductive DStep (n W : Nat) (f : Nat → BatchResult) : DState → DState → Prop
  | claim (s : DState) (w : Nat) (hw : w < W) (hidle : s.workers w = WStatus.idle)
      (hcur : s.cursor < n) :
      DStep n W f s
        { cursor := s.cursor + 1,
          workers := Function.update s.workers w (WStatus.working s.cursor),
          results := s.results,
          claimCount := Function.update s.claimCount s.cursor (s.claimCount s.cursor + 1) }
  | retire (s : DState) (w : Nat) (hw : w < W) (hidle : s.workers w = WStatus.idle)
      (hcur : n ≤ s.cursor) :
      DStep n W f s { s with workers := Function.update s.workers w WStatus.done }
  | finish (s : DState) (w i : Nat) (hw : w < W) (hwork : s.workers w = WStatus.working i) :
      DStep n W f s
        { s with workers := Function.update s.workers w WStatus.idle,
                 results := Function.update s.results i (some (f i)) }

/-- Dispatch has completed: every worker has left its loop
(`await Promise.all(workers)` has resolved). -/
def DTerminal (W : Nat) (s : DState) : Prop :=
  ∀ w, w < W → s.workers w = WStatus.done

/-- The result the retry pipeline resolves for the item at index `i`
(`processBatchItemWithRetry(item)` with the initial attempt number 1). -/
def dispatchResult (parseUrl : String → Except String ParsedUrl)
    (jsonParse : String → Option Js) (nets : Nat → Nat → NetBehavior)
    (maxRetries : Nat) (items : List BatchItem) (i : Nat) : BatchResult :=
  processBatchItemWithRetry parseUrl jsonParse (nets i) (items[i]?.getD defaultItem)
    maxRetries 1

/-- The result sequence the dispatcher returns. -/
def finalResults (n : Nat) (s : DState) : List (Option BatchResult) :=
  (List.range n).map s.results

/-- Invariant of the dispatcher: the cursor never passes `n`; a terminated
worker saw the cursor exhausted; a claimed index is below the cursor and
still unwritten; no index is claimed by two workers at once; a written
result sits below the cursor and is the claimed item's processing result;
an unwritten index below the cursor is currently claimed; and each index is
claimed exactly once, exactly when the cursor has passed it. -/
structure DInv (n W : Nat) (f : Nat → BatchResult) (s : DState) : Prop where
  cursor_le : s.cursor ≤ n
  done_cursor : ∀ w, w < W → s.workers w = WStatus.done → s.cursor = n
  working_lt : ∀ w i, w < W → s.workers w = WStatus.working i →
      i < s.cursor ∧ s.results i = none
  working_uniq : ∀ w w' i, w < W → w' < W → s.workers w = WStatus.working i →
      s.workers w' = WStatus.working i → w = w'
  res_some : ∀ i r, s.results i = some r → i < s.cursor ∧ r = f i
  res_none : ∀ i, i < s.cursor → s.results i = none →
      ∃ w, w < W ∧ s.workers w = WStatus.working i
  count_eq : ∀ i, s.claimCount i = if i < s.cursor then 1 else 0

/-- Number of indices below `W` where the boolean observation holds
(used for the termination measure). -/
def bcount (W : Nat) (g : Nat → Bool) : Nat :=
  (Finset.range W).sum (fun w => if g w then 1 else 0)

/-- Is this worker idle? -/
def WStatus.isIdle : WStatus → Bool
  | WStatus.idle => true
  | _ => false

/-- Is this worker awaiting a claimed item? -/
def WStatus.isWorking : WStatus → Bool
  | WStatus.working _ => true
  | _ => false

/-- Termination measure for the dispatcher: every step strictly decreases it. -/
def wMeasure (n W : Nat) (s : DState) : Nat :=
  2 * (n - s.cursor) + 2 * bcount n (fun i => (s.results i).isNone)
    + bcount W (fun w => (s.workers w).isIdle)
    + 2 * bcount W (fun w => (s.workers w).isWorking)

/-! ## Response augmenter (gzip strategies) -/

/-- Modelled from the spec: the pre-transform metadata snapshot
(`ResponseEnvelope`, spec section 3) embedded as the trailer payload; the
response augmenter itself is code of this repository that is not among the
files under `src/`. -/
structure RespEnvelope where
  statusCode : Nat
  statusMessage : String
  headers : List (String × String)

/-- Modelled from the spec: the augmenter's output, a body with the
`Content-Encoding` it advertises (`Content-Length` is always dropped). -/
structure AugOut where
  body : List Nat
  contentEncoding : Option String
  contentLength : Option Nat

/-- Modelled from the spec: strategy `transform` (spec section 4.3)
stream-decompresses the body, appends the trailer bytes, recompresses with
the same scheme, keeps `Content-Encoding`, and drops `Content-Length`. -/
def transformStrategy (enc dec : List Nat → List Nat) (scheme : String)
    (body trailer : List Nat) : AugOut :=
  { body := enc (dec body ++ trailer), contentEncoding := some scheme,
    contentLength := none }

/-- Modelled from the spec: strategy `decode` (spec section 4.3) fully
decompresses the body, appends the plaintext trailer, and strips the
`Content-Encoding` header. -/
def decodeStrategy (dec : List Nat → List Nat) (body trailer : List Nat) : AugOut :=
  { body := dec body ++ trailer, contentEncoding := none, contentLength := none }

/-! ## Executor lemmas -/

/-- A truthy `requestId` is a nonempty string, so `item.requestId` and
`item.requestId || 'unknown'` agree. -/
lemma jsTruthy_getD_eq_orUnknown {r : Option String} (h : jsTruthy r = true) :
    r.getD "" = orUnknown r := by
  cases r with
  | none => simp [jsTruthy] at h
  | some s =>
      simp only [jsTruthy, Bool.not_eq_true'] at h
      simp [orUnknown, h]

/-- On the validated path (truthy `requestId` and `url`, parsable URL) the
executor's outcome is determined by the network behaviour. -/
lemma processBatchItem_valid {pu : String → Except String ParsedUrl}
    {jp : String → Option Js} {item : BatchItem} {u : ParsedUrl}
    (h1 : jsTruthy item.requestId = true) (h2 : jsTruthy item.url = true)
    (h3 : pu (item.url.getD "") = Except.ok u) (net : NetBehavior) :
    processBatchItem pu jp net item =
      match net with
      | NetBehavior.throws msg => Except.error msg
      | NetBehavior.responds st hs b =>
          Except.ok ⟨{ requestId := item.requestId.getD "", status := st,
                       headers := some hs,
                       body := some (augmentBody jp st b (item.requestId.getD "")),
                       error := none }, true, false⟩
      | NetBehavior.fails msg =>
          Except.ok ⟨{ requestId := item.requestId.getD "", status := 502, headers := none,
                       body := none,
                       error := some ("Proxy error: " ++ msg) }, true, false⟩
      | NetBehavior.timesOut =>
          Except.ok ⟨{ requestId := item.requestId.getD "", status := 504, headers := none,
                       body := none,
                       error := some "Request timeout" }, true, true⟩ := by
  unfold processBatchItem
  rw [h1, h2, h3]
  simp

/-- The executor can only reject (throw) after both validations passed. -/
lemma processBatchItem_error_truthy {pu : String → Except String ParsedUrl}
    {jp : String → Option Js} {net : NetBehavior} {item : BatchItem} {msg : String}
    (h : processBatchItem pu jp net item = Except.error msg) :
    jsTruthy item.requestId = true := by
  cases hb : jsTruthy item.requestId with
  | true => rfl
  | false =>
      unfold processBatchItem at h
      rw [hb] at h
      simp at h

/-- Whatever the executor resolves with carries the item's `requestId`
(with falsy ids replaced by `"unknown"`). -/
lemma processBatchItem_ok_requestId {pu : String → Except String ParsedUrl}
    {jp : String → Option Js} {net : NetBehavior} {item : BatchItem} {out : ExecOutcome}
    (h : processBatchItem pu jp net item = Except.ok out) :
    out.result.requestId = orUnknown item.requestId := by
  cases hb : jsTruthy item.requestId with
  | false =>
      have hA : processBatchItem pu jp net item =
          Except.ok ⟨{ requestId := orUnknown item.requestId, status := 400, headers := none,
                       body := none, error := some "Missing requestId field" },
                     false, false⟩ := by
        unfold processBatchItem
        rw [hb]
        simp
      rw [hA] at h
      simp only [Except.ok.injEq] at h
      rw [← h]
  | true =>
      have hg := jsTruthy_getD_eq_orUnknown hb
      cases hu : jsTruthy item.url with
      | false =>
          have hA : processBatchItem pu jp net item =
              Except.ok ⟨{ requestId := item.requestId.getD "", status := 400, headers := none,
                           body := none, error := some "Missing url field" },
                         false, false⟩ := by
            unfold processBatchItem
            rw [hb, hu]
            simp
          rw [hA] at h
          simp only [Except.ok.injEq] at h
          rw [← h]
          exact hg
      | true =>
          cases hpu : pu (item.url.getD "") with
          | error e =>
              have hA : processBatchItem pu jp net item =
                  Except.ok ⟨{ requestId := item.requestId.getD "", status := 400,
                               headers := none, body := none,
                               error := some ("Invalid URL: " ++ e) }, false, false⟩ := by
                unfold processBatchItem
                rw [hb, hu, hpu]
                simp
              rw [hA] at h
              simp only [Except.ok.injEq] at h
              rw [← h]
              exact hg
          | ok upp =>
              rw [processBatchItem_valid hb hu hpu] at h
              cases net with
              | throws msg => simp at h
              | responds st hs b =>
                  simp only [Except.ok.injEq] at h
                  rw [← h]
                  exact hg
              | fails msg =>
                  simp only [Except.ok.injEq] at h
                  rw [← h]
                  exact hg
              | timesOut =>
                  simp only [Except.ok.injEq] at h
                  rw [← h]
                  exact hg

/-! ## Retry-loop lemmas -/

/-- A thrown fault is caught by the retry wrapper and converted to a 500
result carrying the fault message. -/
lemma retry_error_result (maxR : Nat) {pu : String → Except String ParsedUrl}
    {jp : String → Option Js} {net : Nat → NetBehavior} {item : BatchItem}
    {a : Nat} {msg : String}
    (h : processBatchItem pu jp (net a) item = Except.error msg) :
    processBatchItemWithRetry pu jp net item maxR a =
      { requestId := item.requestId.getD "", status := 500, headers := none, body := none,
        error := some ("Processing error: " ++ msg) } := by
  unfold processBatchItemWithRetry
  rw [h]

/-- The retry loop's final result carries the item's `requestId` (with
falsy ids replaced by `"unknown"`), whatever the attempt it stopped at. -/
lemma retry_requestId (pu : String → Except String ParsedUrl)
    (jp : String → Option Js) (net : Nat → NetBehavior) (item : BatchItem) (maxR : Nat) :
    ∀ a, (processBatchItemWithRetry pu jp net item maxR a).requestId =
      orUnknown item.requestId := by
  have H : ∀ k a, maxR + 1 - a ≤ k →
      (processBatchItemWithRetry pu jp net item maxR a).requestId =
        orUnknown item.requestId := by
    intro k
    induction k with
    | zero =>
        intro a ha
        unfold processBatchItemWithRetry
        cases heq : processBatchItem pu jp (net a) item with
        | error msg =>
            exact jsTruthy_getD_eq_orUnknown (processBatchItem_error_truthy heq)
        | ok out =>
            dsimp only
            rw [dif_neg]
            · exact processBatchItem_ok_requestId heq
            · rintro ⟨-, hle⟩
              omega
    | succ k ih =>
        intro a ha
        unfold processBatchItemWithRetry
        cases heq : processBatchItem pu jp (net a) item with
        | error msg =>
            exact jsTruthy_getD_eq_orUnknown (processBatchItem_error_truthy heq)
        | ok out =>
            by_cases hc : out.result.status = 429 ∧ a ≤ maxR
            · dsimp only
              rw [dif_pos hc]
              exact ih (a + 1) (by omega)
            · dsimp only
              rw [dif_neg hc]
              exact processBatchItem_ok_requestId heq
  intro a
  exact H (maxR + 1 - a) a le_rfl

/-- The retry loop stops as soon as the inlined `shouldRetry` test fails. -/
lemma retry_stops {pu : String → Except String ParsedUrl}
    {jp : String → Option Js} {net : Nat → NetBehavior} {item : BatchItem}
    {maxR a : Nat} {out : ExecOutcome}
    (h : processBatchItem pu jp (net a) item = Except.ok out)
    (hs : shouldRetry out.result a maxR = false) :
    processBatchItemWithRetry pu jp net item maxR a = out.result := by
  unfold processBatchItemWithRetry
  rw [h]
  dsimp only
  rw [dif_neg]
  simpa [shouldRetry] using hs

/-- The retry loop calls the executor at most `maxRetries + 1` times when
started at attempt 1 (more generally, `max (maxRetries + 2 - attempt) 1`
times from attempt `attempt`). -/
lemma retryInvocations_le (pu : String → Except String ParsedUrl)
    (jp : String → Option Js) (net : Nat → NetBehavior) (item : BatchItem) (maxR : Nat) :
    ∀ a, retryInvocations pu jp net item maxR a ≤ max (maxR + 2 - a) 1 := by
  have H : ∀ k a, maxR + 1 - a ≤ k →
      retryInvocations pu jp net item maxR a ≤ max (maxR + 2 - a) 1 := by
    intro k
    induction k with
    | zero =>
        intro a ha
        unfold retryInvocations
        cases heq : processBatchItem pu jp (net a) item with
        | error msg => simp
        | ok out =>
            dsimp only
            rw [dif_neg]
            · simp
            · rintro ⟨-, hle⟩
              omega
    | succ k ih =>
        intro a ha
        unfold retryInvocations
        cases heq : processBatchItem pu jp (net a) item with
        | error msg => simp
        | ok out =>
            by_cases hc : out.result.status = 429 ∧ a ≤ maxR
            · dsimp only
              rw [dif_pos hc]
              have hrec := ih (a + 1) (by omega)
              have hle : a ≤ maxR := hc.2
              omega
            · dsimp only
              rw [dif_neg hc]
              simp
  intro a
  exact H (maxR + 1 - a) a le_rfl

/-- Position in the delay trace determines the delay: the entry at position
`p` of the trace started at attempt `a` is `baseDelay * 2 ^ (a - 1 + p)`. -/
lemma retryDelays_getElem (pu : String → Except String ParsedUrl)
    (jp : String → Option Js) (net : Nat → NetBehavior) (item : BatchItem)
    (base maxR : Nat) :
    ∀ a p d, 1 ≤ a →
      (retryDelays pu jp net item base maxR a)[p]? = some d →
      d = base * 2 ^ (a - 1 + p) := by
  have H : ∀ k a p d, maxR + 1 - a ≤ k → 1 ≤ a →
      (retryDelays pu jp net item base maxR a)[p]? = some d →
      d = base * 2 ^ (a - 1 + p) := by
    intro k
    induction k with
    | zero =>
        intro a p d ha h1 hget
        unfold retryDelays at hget
        cases heq : processBatchItem pu jp (net a) item with
        | error msg =>
            rw [heq] at hget
            simp at hget
        | ok out =>
            rw [heq] at hget
            dsimp only at hget
            rw [dif_neg] at hget
            · simp at hget
            · rintro ⟨-, hle⟩
              omega
    | succ k ih =>
        intro a p d ha h1 hget
        unfold retryDelays at hget
        cases heq : processBatchItem pu jp (net a) item with
        | error msg =>
            rw [heq] at hget
            simp at hget
        | ok out =>
            rw [heq] at hget
            dsimp only at hget
            by_cases hc : out.result.status = 429 ∧ a ≤ maxR
            · rw [dif_pos hc] at hget
              cases p with
              | zero =>
                  simp only [List.getElem?_cons_zero, Option.some.injEq] at hget
                  rw [← hget]
                  simp
              | succ p =>
                  simp only [List.getElem?_cons_succ] at hget
                  have hrec := ih (a + 1) p d (by omega) (by omega) hget
                  have hexp : a + 1 - 1 + p = a - 1 + (p + 1) := by omega
                  rw [hrec, hexp]
            · rw [dif_neg hc] at hget
              simp at hget
  intro a p d h1 hget
  exact H (maxR + 1 - a) a p d le_rfl h1 hget

/-! ## Formatting lemmas -/

/-- Looking a key up after a JS object assignment. -/
lemma jsLookup_jsObjSet (m : List (String × Formatted)) (k k' : String) (v : Formatted) :
    jsLookup (jsObjSet m k' v) k = if k' = k then some v else jsLookup m k := by
  induction m with
  | nil => simp [jsObjSet, jsLookup]
  | cons hd tl ih =>
      obtain ⟨k0, v0⟩ := hd
      by_cases h0 : k0 = k'
      · subst h0
        by_cases hk : k0 = k
        · simp [jsObjSet, jsLookup, hk]
        · simp [jsObjSet, jsLookup, hk]
      · by_cases hk : k0 = k
        · subst hk
          have hne : k' ≠ k0 := fun hh => h0 hh.symm
          simp [jsObjSet, jsLookup, h0, hne]
        · simp [jsObjSet, jsLookup, h0, hk, ih]

/-- The `forEach` formatting loop: the value recorded under key `k` is the
formatting of the last result with that `requestId`, and an untouched key
falls back to the accumulator. -/
lemma formatResults_loop (rs : List BatchResult) :
    ∀ (m : List (String × Formatted)) (k : String),
      jsLookup (rs.foldl (fun m r => jsObjSet m r.requestId (formatResult r)) m) k =
        match lastWith rs k with
        | some r => some (formatResult r)
        | none => jsLookup m k := by
  induction rs with
  | nil =>
      intro m k
      simp [lastWith]
  | cons r rest ih =>
      intro m k
      simp only [List.foldl_cons]
      rw [ih]
      cases hl : lastWith rest k with
      | some r' => simp [lastWith, hl]
      | none =>
          simp only [lastWith, hl]
          rw [jsLookup_jsObjSet]
          by_cases hk : r.requestId = k
          · simp [hk]
          · simp [hk]

/-! ## JSON augmentation lemmas -/

/-- Field lookup on a JS object literal. -/
def jsGetField : List (String × Js) → String → Option Js
  | [], _ => none
  | (k', v) :: rest, k => if k' = k then some v else jsGetField rest k

/-- After `obj[k] = v`, looking up `k` yields `v`. -/
lemma jsGetField_setField (k : String) (v : Js) :
    ∀ fs : List (String × Js), jsGetField (setField fs k v) k = some v := by
  intro fs
  induction fs with
  | nil => simp [setField, jsGetField]
  | cons hd tl ih =>
      obtain ⟨k0, v0⟩ := hd
      by_cases h : k0 = k
      · simp [setField, jsGetField, h]
      · simp [setField, jsGetField, h, ih]

/-! ## Dispatcher invariant -/

/-- The invariant holds when the workers are started. -/
lemma dinv_init (n W : Nat) (f : Nat → BatchResult) : DInv n W f initState := by
  constructor
  · exact Nat.zero_le n
  · intro w hw hdone
    simp [initState] at hdone
  · intro w i hw hwork
    simp [initState] at hwork
  · intro w w' i hw hw' h1 h2
    simp [initState] at h1
  · intro i r hr
    simp [initState] at hr
  · intro i hi
    simp [initState] at hi
  · intro i
    simp [initState]

/-- Every scheduler step preserves the invariant. -/
lemma dinv_step {n W : Nat} {f : Nat → BatchResult} {s s' : DState}
    (hinv : DInv n W f s) (hstep : DStep n W f s s') : DInv n W f s' := by
  cases hstep with
  | claim w hw hidle hcur =>
      refine ⟨?_, ?_, ?_, ?_, ?_, ?_, ?_⟩ <;> dsimp only
      · omega
      · intro w' hw' hdone
        by_cases hww : w' = w
        · subst hww
          rw [Function.update_same] at hdone
          simp at hdone
        · rw [Function.update_noteq hww] at hdone
          have := hinv.done_cursor w' hw' hdone
          omega
      · intro w' i hw' hwork
        by_cases hww : w' = w
        · subst hww
          rw [Function.update_same] at hwork
          cases hwork
          refine ⟨by omega, ?_⟩
          cases hres : s.results s.cursor with
          | none => rfl
          | some r =>
              have := (hinv.res_some s.cursor r hres).1
              omega
        · rw [Function.update_noteq hww] at hwork
          have := hinv.working_lt w' i hw' hwork
          exact ⟨by omega, this.2⟩
      · intro w1 w2 i hw1 hw2 h1 h2
        by_cases e1 : w1 = w
        · by_cases e2 : w2 = w
          · rw [e1, e2]
          · subst e1
            rw [Function.update_same] at h1
            rw [Function.update_noteq e2] at h2
            cases h1
            have := (hinv.working_lt w2 s.cursor hw2 h2).1
            omega
        · by_cases e2 : w2 = w
          · subst e2
            rw [Function.update_same] at h2
            rw [Function.update_noteq e1] at h1
            cases h2
            have := (hinv.working_lt w1 s.cursor hw1 h1).1
            omega
          · rw [Function.update_noteq e1] at h1
            rw [Function.update_noteq e2] at h2
            exact hinv.working_uniq w1 w2 i hw1 hw2 h1 h2
      · intro i r hr
        have := hinv.res_some i r hr
        exact ⟨by omega, this.2⟩
      · intro i hi hres
        rcases Nat.lt_succ_iff_lt_or_eq.mp hi with hlt | heq
        · obtain ⟨w', hw', hwork⟩ := hinv.res_none i hlt hres
          have hne : w' ≠ w := by
            intro hh
            rw [hh, hidle] at hwork
            simp at hwork
          exact ⟨w', hw', by rw [Function.update_noteq hne]; exact hwork⟩
        · subst heq
          exact ⟨w, hw, by rw [Function.update_same]⟩
      · intro i
        by_cases hic : i = s.cursor
        · subst hic
          rw [Function.update_same, hinv.count_eq s.cursor]
          simp
        · rw [Function.update_noteq hic, hinv.count_eq i]
          split_ifs <;> omega
  | retire w hw hidle hcur =>
      have hceq : s.cursor = n := by
        have := hinv.cursor_le
        omega
      refine ⟨?_, ?_, ?_, ?_, ?_, ?_, ?_⟩ <;> dsimp only
      · exact hinv.cursor_le
      · intro w' hw' hdone
        exact hceq
      · intro w' i hw' hwork
        by_cases hww : w' = w
        · subst hww
          rw [Function.update_same] at hwork
          simp at hwork
        · rw [Function.update_noteq hww] at hwork
          exact hinv.working_lt w' i hw' hwork
      · intro w1 w2 i hw1 hw2 h1 h2
        by_cases e1 : w1 = w
        · subst e1
          rw [Function.update_same] at h1
          simp at h1
        · by_cases e2 : w2 = w
          · subst e2
            rw [Function.update_same] at h2
            simp at h2
          · rw [Function.update_noteq e1] at h1
            rw [Function.update_noteq e2] at h2
            exact hinv.working_uniq w1 w2 i hw1 hw2 h1 h2
      · exact hinv.res_some
      · intro i hi hres
        obtain ⟨w', hw', hwork⟩ := hinv.res_none i hi hres
        have hne : w' ≠ w := by
          intro hh
          rw [hh, hidle] at hwork
          simp at hwork
        exact ⟨w', hw', by rw [Function.update_noteq hne]; exact hwork⟩
      · exact hinv.count_eq
  | finish w i hw hwork =>
      obtain ⟨hi_lt, hi_none⟩ := hinv.working_lt w i hw hwork
      refine ⟨?_, ?_, ?_, ?_, ?_, ?_, ?_⟩ <;> dsimp only
      · exact hinv.cursor_le
      · intro w' hw' hdone
        by_cases hww : w' = w
        · subst hww
          rw [Function.update_same] at hdone
          simp at hdone
        · rw [Function.update_noteq hww] at hdone
          exact hinv.done_cursor w' hw' hdone
      · intro w' i' hw' hwork'
        by_cases hww : w' = w
        · subst hww
          rw [Function.update_same] at hwork'
          simp at hwork'
        · rw [Function.update_noteq hww] at hwork'
          obtain ⟨h1, h2⟩ := hinv.working_lt w' i' hw' hwork'
          have hii : i' ≠ i := by
            intro hh
            subst hh
            exact hww (hinv.working_uniq w' w i' hw' hw hwork' hwork)
          exact ⟨h1, by rw [Function.update_noteq hii]; exact h2⟩
      · intro w1 w2 i' hw1 hw2 h1 h2
        by_cases e1 : w1 = w
        · subst e1
          rw [Function.update_same] at h1
          simp at h1
        · by_cases e2 : w2 = w
          · subst e2
            rw [Function.update_same] at h2
            simp at h2
          · rw [Function.update_noteq e1] at h1
            rw [Function.update_noteq e2] at h2
            exact hinv.working_uniq w1 w2 i' hw1 hw2 h1 h2
      · intro i' r hr
        by_cases hii : i' = i
        · subst hii
          rw [Function.update_same] at hr
          cases hr
          exact ⟨hi_lt, rfl⟩
        · rw [Function.update_noteq hii] at hr
          exact hinv.res_some i' r hr
      · intro i' hi' hres
        by_cases hii : i' = i
        · subst hii
          rw [Function.update_same] at hres
          simp at hres
        · rw [Function.update_noteq hii] at hres
          obtain ⟨w', hw', hwork'⟩ := hinv.res_none i' hi' hres
          have hne : w' ≠ w := by
            intro hh
            subst hh
            rw [hwork] at hwork'
            cases hwork'
            exact hii rfl
          exact ⟨w', hw', by rw [Function.update_noteq hne]; exact hwork'⟩
      · exact hinv.count_eq

/-- The invariant holds in any state the scheduler can reach. -/
lemma dinv_reachable {n W : Nat} {f : Nat → BatchResult} {s : DState}
    (h : Relation.ReflTransGen (DStep n W f) initState s) : DInv n W f s := by
  induction h with
  | refl => exact dinv_init n W f
  | tail hab hbc ih => exact dinv_step ih hbc

/-- A single step never moves the shared cursor backwards. -/
lemma step_cursor_mono {n W : Nat} {f : Nat → BatchResult} {s s' : DState}
    (h : DStep n W f s s') : s.cursor ≤ s'.cursor := by
  cases h <;> dsimp <;> omega

/-- When every worker has terminated, the cursor has exhausted the batch. -/
lemma terminal_cursor {n W : Nat} {f : Nat → BatchResult} {s : DState}
    (hinv : DInv n W f s) (hterm : DTerminal W s) (hW : 1 ≤ W) : s.cursor = n :=
  hinv.done_cursor 0 hW (hterm 0 hW)

/-- When every worker has terminated, every index holds its item's result. -/
lemma terminal_results {n W : Nat} {f : Nat → BatchResult} {s : DState}
    (hinv : DInv n W f s) (hterm : DTerminal W s) (hW : 1 ≤ W) :
    ∀ i, i < n → s.results i = some (f i) := by
  intro i hi
  have hcur := terminal_cursor hinv hterm hW
  cases hres : s.results i with
  | some r =>
      rw [(hinv.res_some i r hres).2]
  | none =>
      obtain ⟨w, hw, hwork⟩ := hinv.res_none i (by omega) hres
      have hdone := hterm w hw
      rw [hdone] at hwork
      simp at hwork

/-! ## Dispatcher progress and termination -/

/-- Updating one observed point exchanges its contribution to the count. -/
lemma bcount_update {W : Nat} {g : Nat → Bool} {w : Nat} (hw : w < W) (b : Bool) :
    bcount W (Function.update g w b) + (if g w then 1 else 0)
      = bcount W g + (if b then 1 else 0) := by
  unfold bcount
  have hmem : w ∈ Finset.range W := Finset.mem_range.mpr hw
  have hfun : (fun x => if Function.update g w b x then 1 else 0)
      = Function.update (fun x => if g x then (1 : Nat) else 0) w (if b then 1 else 0) := by
    funext x
    by_cases hx : x = w
    · subst hx
      rw [Function.update_same, Function.update_same]
    · rw [Function.update_noteq hx, Function.update_noteq hx]
  rw [hfun, Finset.sum_update_of_mem hmem, Finset.sdiff_singleton_eq_erase,
    ← Finset.sum_erase_add (Finset.range W) (fun x => if g x then (1 : Nat) else 0) hmem]
  omega

/-- `bcount` composed with a pointwise observation, after a point update. -/
lemma bcount_comp_update {α : Type} {W w : Nat} (hw : w < W) (g : Nat → α) (v : α)
    (p : α → Bool) :
    bcount W (fun x => p (Function.update g w v x)) + (if p (g w) then 1 else 0)
      = bcount W (fun x => p (g x)) + (if p v then 1 else 0) := by
  have hfun : (fun x => p (Function.update g w v x))
      = Function.update (fun x => p (g x)) w (p v) := by
    funext x
    by_cases hx : x = w
    · subst hx
      rw [Function.update_same, Function.update_same]
    · rw [Function.update_noteq hx, Function.update_noteq hx]
  rw [hfun]
  exact bcount_update hw (p v)

/-- Every scheduler step strictly decreases the measure, so no run of the
dispatcher goes on forever. -/
lemma wMeasure_decreases {n W : Nat} {f : Nat → BatchResult} {s s' : DState}
    (hinv : DInv n W f s) (hstep : DStep n W f s s') :
    wMeasure n W s' < wMeasure n W s := by
  cases hstep with
  | claim w hw hidle hcur =>
      have hI : bcount W (fun x => (Function.update s.workers w
            (WStatus.working s.cursor) x).isIdle) + 1
          = bcount W (fun x => (s.workers x).isIdle) := by
        have h := bcount_comp_update hw s.workers (WStatus.working s.cursor) WStatus.isIdle
        rw [hidle] at h
        simpa [WStatus.isIdle] using h
      have hK : bcount W (fun x => (Function.update s.workers w
            (WStatus.working s.cursor) x).isWorking)
          = bcount W (fun x => (s.workers x).isWorking) + 1 := by
        have h := bcount_comp_update hw s.workers (WStatus.working s.cursor) WStatus.isWorking
        rw [hidle] at h
        simpa [WStatus.isWorking] using h
      unfold wMeasure
      dsimp only
      omega
  | retire w hw hidle hcur =>
      have hI : bcount W (fun x => (Function.update s.workers w WStatus.done x).isIdle) + 1
          = bcount W (fun x => (s.workers x).isIdle) := by
        have h := bcount_comp_update hw s.workers WStatus.done WStatus.isIdle
        rw [hidle] at h
        simpa [WStatus.isIdle] using h
      have hK : bcount W (fun x => (Function.update s.workers w WStatus.done x).isWorking)
          = bcount W (fun x => (s.workers x).isWorking) := by
        have h := bcount_comp_update hw s.workers WStatus.done WStatus.isWorking
        rw [hidle] at h
        simpa [WStatus.isWorking] using h
      unfold wMeasure
      dsimp only
      omega
  | finish w i hw hwork =>
      obtain ⟨hi_lt, hi_none⟩ := hinv.working_lt w i hw hwork
      have hin : i < n := by
        have := hinv.cursor_le
        omega
      have hI : bcount W (fun x => (Function.update s.workers w WStatus.idle x).isIdle)
          = bcount W (fun x => (s.workers x).isIdle) + 1 := by
        have h := bcount_comp_update hw s.workers WStatus.idle WStatus.isIdle
        rw [hwork] at h
        simpa [WStatus.isIdle] using h
      have hK : bcount W (fun x => (Function.update s.workers w WStatus.idle x).isWorking) + 1
          = bcount W (fun x => (s.workers x).isWorking) := by
        have h := bcount_comp_update hw s.workers WStatus.idle WStatus.isWorking
        rw [hwork] at h
        simpa [WStatus.isWorking] using h
      have hU : bcount n (fun x => (Function.update s.results i (some (f i)) x).isNone) + 1
          = bcount n (fun x => (s.results x).isNone) := by
        have h := bcount_comp_update hin s.results (some (f i)) Option.isNone
        rw [hi_none] at h
        simpa using h
      unfold wMeasure
      dsimp only
      omega

/-- A non-terminal state can always step: some worker is idle (and can
claim or retire) or awaiting (and can finish). -/
lemma dprogress {n W : Nat} {f : Nat → BatchResult} {s : DState}
    (hnt : ¬ DTerminal W s) : ∃ s', DStep n W f s s' := by
  unfold DTerminal at hnt
  push_neg at hnt
  obtain ⟨w, hw, hne⟩ := hnt
  cases hwk : s.workers w with
  | idle =>
      by_cases hc : s.cursor < n
      · exact ⟨_, DStep.claim s w hw hwk hc⟩
      · exact ⟨_, DStep.retire s w hw hwk (by omega)⟩
  | working i => exact ⟨_, DStep.finish s w i hw hwk⟩
  | done => exact absurd hwk hne

/-- From every invariant state the dispatcher can continue to a terminal
state (bounded by the measure, so `Promise.all(workers)` resolves). -/
lemma exists_terminal {n W : Nat} {f : Nat → BatchResult} :
    ∀ (m : Nat) (s : DState), wMeasure n W s ≤ m → DInv n W f s →
      ∃ t, Relation.ReflTransGen (DStep n W f) s t ∧ DTerminal W t := by
  intro m
  induction m with
  | zero =>
      intro s hm hinv
      by_cases ht : DTerminal W s
      · exact ⟨s, Relation.ReflTransGen.refl, ht⟩
      · obtain ⟨s', hstep⟩ := dprogress ht
        have := wMeasure_decreases hinv hstep
        omega
  | succ m ih =>
      intro s hm hinv
      by_cases ht : DTerminal W s
      · exact ⟨s, Relation.ReflTransGen.refl, ht⟩
      · obtain ⟨s', hstep⟩ := dprogress ht
        have hlt := wMeasure_decreases hinv hstep
        obtain ⟨t, hreach, htt⟩ := ih s' (by omega) (dinv_step hinv hstep)
        exact ⟨t, Relation.ReflTransGen.head hstep hreach, htt⟩

/-- The dispatcher's result list has one slot per submitted item. -/
lemma finalResults_length (n : Nat) (s : DState) : (finalResults n s).length = n := by
  simp [finalResults]

/-- The dispatcher's result list reads off the results array in index order. -/
lemma finalResults_getElem (n : Nat) (s : DState) (i : Nat) (h : i < n) :
    (finalResults n s)[i]? = some (s.results i) := by
  simp [finalResults, List.getElem?_range, h]

/-! ## A concrete two-item batch and a complete dispatch run

Used to witness the dispatcher theorems: one worker (`maxConcurrency = 1`),
item 0 answered 200, item 1 throwing a fault. -/

/-- A URL-parser oracle that accepts everything. -/
def cParse : String → Except String ParsedUrl :=
  fun _ => Except.ok ⟨false, "h", none, "/"⟩

/-- A `JSON.parse` oracle that rejects everything. -/
def cJson : String → Option Js := fun _ => none

/-- A valid item with `requestId = "a"`. -/
def cItemA : BatchItem :=
  { requestId := some "a", url := some "u", method := none, headers := none }

/-- A valid item with `requestId = "b"`. -/
def cItemB : BatchItem :=
  { requestId := some "b", url := some "u", method := none, headers := none }

/-- The two-item batch. -/
def cItems : List BatchItem := [cItemA, cItemB]

/-- Network oracle: item 1 throws a fault, everything else answers 200. -/
def cNets : Nat → Nat → NetBehavior := fun i _ =>
  if i = 1 then NetBehavior.throws "boom" else NetBehavior.responds 200 [] "ok"

/-- The per-item results of the concrete batch. -/
def cF : Nat → BatchResult := dispatchResult cParse cJson cNets 3 cItems

/-- Run state after the single worker claims index 0. -/
def cS1 : DState :=
  { cursor := 1, workers := Function.update (fun _ => WStatus.idle) 0 (WStatus.working 0),
    results := fun _ => none, claimCount := Function.update (fun _ => 0) 0 1 }

/-- Run state after the worker records item 0's result. -/
def cS2 : DState :=
  { cursor := 1, workers := Function.update cS1.workers 0 WStatus.idle,
    results := Function.update cS1.results 0 (some (cF 0)), claimCount := cS1.claimCount }

/-- Run state after the worker claims index 1. -/
def cS3 : DState :=
  { cursor := 2, workers := Function.update cS2.workers 0 (WStatus.working 1),
    results := cS2.results, claimCount := Function.update cS2.claimCount 1 (cS2.claimCount 1 + 1) }

/-- Run state after the worker records item 1's result. -/
def cS4 : DState :=
  { cursor := 2, workers := Function.update cS3.workers 0 WStatus.idle,
    results := Function.update cS3.results 1 (some (cF 1)), claimCount := cS3.claimCount }

/-- Final state: the worker has retired. -/
def cS5 : DState :=
  { cursor := 2, workers := Function.update cS4.workers 0 WStatus.done,
    results := cS4.results, claimCount := cS4.claimCount }

/-- The concrete run reaches `cS5` from the start state. -/
lemma cReach : Relation.ReflTransGen (DStep 2 1 cF) initState cS5 := by
  have h1 : DStep 2 1 cF initState cS1 :=
    DStep.claim initState 0 (by decide) rfl (by decide)
  have h2 : DStep 2 1 cF cS1 cS2 :=
    DStep.finish cS1 0 0 (by decide) rfl
  have h3 : DStep 2 1 cF cS2 cS3 :=
    DStep.claim cS2 0 (by decide) rfl (by decide)
  have h4 : DStep 2 1 cF cS3 cS4 :=
    DStep.finish cS3 0 1 (by decide) rfl
  have h5 : DStep 2 1 cF cS4 cS5 :=
    DStep.retire cS4 0 (by decide) rfl (by decide)
  exact Relation.ReflTransGen.head h1 (Relation.ReflTransGen.head h2
    (Relation.ReflTransGen.head h3 (Relation.ReflTransGen.head h4
      (Relation.ReflTransGen.head h5 Relation.ReflTransGen.refl))))

/-- The concrete run's final state is terminal. -/
lemma cTerm : DTerminal 1 cS5 := by
  intro w hw
  have hw0 : w = 0 := by omega
  subst hw0
  rfl

/-! ## Claim theorems -/

/-- C1: for every non-empty batch, any completed dispatch run (any order of
worker interleaving) returns a result sequence of exactly the input's
length, whose entry at position `i` is the processing result of the item at
input position `i`, carrying that item's `requestId`. -/
theorem dispatch_results_ordered
    (pu : String → Except String ParsedUrl) (jp : String → Option Js)
    (nets : Nat → Nat → NetBehavior) (maxC maxR : Nat) (items : List BatchItem)
    (s : DState) (hne : items ≠ []) (hmc : 1 ≤ maxC)
    (hreach : Relation.ReflTransGen
      (DStep items.length (min maxC items.length) (dispatchResult pu jp nets maxR items))
      initState s)
    (hterm : DTerminal (min maxC items.length) s) :
    (finalResults items.length s).length = items.length
    ∧ (∀ i, i < items.length →
        (finalResults items.length s)[i]? =
          some (some (dispatchResult pu jp nets maxR items i)))
    ∧ (∀ i, i < items.length →
        (dispatchResult pu jp nets maxR items i).requestId
          = orUnknown ((items[i]?.getD defaultItem).requestId)) := by
  have hlen : 0 < items.length := List.length_pos.mpr hne
  have hW : 1 ≤ min maxC items.length := le_min hmc hlen
  have hinv := dinv_reachable hreach
  have hres := terminal_results hinv hterm hW
  refine ⟨finalResults_length _ _, ?_, ?_⟩
  · intro i hi
    rw [finalResults_getElem _ _ i hi, hres i hi]
  · intro i hi
    exact retry_requestId pu jp (nets i) (items[i]?.getD defaultItem) maxR 1

/-- C1 witness: the concrete two-item run returns two slots, slot 0 holding
item 0's result. -/
theorem dispatch_results_ordered_witness :
    (finalResults cItems.length cS5).length = cItems.length
    ∧ (finalResults cItems.length cS5)[0]? =
        some (some (dispatchResult cParse cJson cNets 3 cItems 0)) := by
  have h := dispatch_results_ordered cParse cJson cNets 1 3 cItems cS5
    (by simp [cItems]) (by decide) cReach cTerm
  exact ⟨h.1, h.2.1 0 (by simp [cItems])⟩

/-- C2: the inlined retry test holds iff the number of already-performed
attempts (`attempt - 1` for the 1-based counter) is below the retry budget
and the status is 429; a 504 or 502 result is never retried; and with the
budget `MAX_RETRIES = 3` the loop performs at most 1 + 3 executor calls,
i.e. at most 3 retries after the initial attempt. -/
theorem shouldRetry_spec (r : BatchResult) (a maxR : Nat) (ha : 1 ≤ a) :
    (shouldRetry r a maxR = true ↔ (a - 1 < maxR ∧ r.status = 429))
    ∧ (r.status = 504 ∨ r.status = 502 → shouldRetry r a maxR = false)
    ∧ (∀ (pu : String → Except String ParsedUrl) (jp : String → Option Js)
        (net : Nat → NetBehavior) (item : BatchItem),
        retryInvocations pu jp net item 3 1 ≤ 1 + 3) := by
  refine ⟨?_, ?_, ?_⟩
  · simp only [shouldRetry, decide_eq_true_eq]
    constructor
    · rintro ⟨hs, hle⟩
      exact ⟨by omega, hs⟩
    · rintro ⟨hlt, hs⟩
      exact ⟨hs, by omega⟩
  · rintro (h | h) <;> (simp only [shouldRetry]; rw [h]; rfl)
  · intro pu jp net item
    have h := retryInvocations_le pu jp net item 3 1
    simpa using h

/-- A rate-limited result used to instantiate the retry decision. -/
def cR429 : BatchResult :=
  { requestId := "w", status := 429, headers := none, body := none, error := none }

/-- C2 witness: at the first attempt with budget 3 a 429 is retried, and
the equivalence holds at that instance. -/
theorem shouldRetry_spec_witness :
    shouldRetry cR429 1 3 = true ↔ (1 - 1 < 3 ∧ (429 : Nat) = 429) := by
  have h := (shouldRetry_spec cR429 1 3 (by decide)).1
  simpa [cR429] using h

/-- C3: the delay slept before the retry triggered at attempt `k` (1-based,
the k-th entry of the delay trace) is `baseDelayMs * 2 ^ (k - 1)`: the
first retry waits the base delay, each further retry twice the previous. -/
theorem backoff_delay_exponential (pu : String → Except String ParsedUrl)
    (jp : String → Option Js) (net : Nat → NetBehavior) (item : BatchItem)
    (base maxR k d : Nat) (_hk : 1 ≤ k)
    (hget : (retryDelays pu jp net item base maxR 1)[k - 1]? = some d) :
    d = base * 2 ^ (k - 1) := by
  have h := retryDelays_getElem pu jp net item base maxR 1 (k - 1) d le_rfl hget
  simpa using h

/-- One unfolding of the delay trace when the attempt is rate-limited. -/
lemma retryDelays_cons {pu : String → Except String ParsedUrl}
    {jp : String → Option Js} {net : Nat → NetBehavior} {item : BatchItem}
    {base maxR a : Nat} {out : ExecOutcome}
    (h : processBatchItem pu jp (net a) item = Except.ok out)
    (hc : out.result.status = 429 ∧ a ≤ maxR) :
    retryDelays pu jp net item base maxR a
      = base * 2 ^ (a - 1) :: retryDelays pu jp net item base maxR (a + 1) := by
  conv_lhs => unfold retryDelays
  rw [h]
  dsimp only
  rw [dif_pos hc]

/-- Network oracle that is rate-limited on every attempt. -/
def cNet429 : Nat → NetBehavior := fun _ => NetBehavior.responds 429 [] ""

/-- The executor outcome of each rate-limited attempt on `cItemA`. -/
lemma cNet429_exec (a : Nat) :
    processBatchItem cParse cJson (cNet429 a) cItemA =
      Except.ok ⟨{ requestId := "a", status := 429, headers := some [],
                   body := some (BodyVal.str ""), error := none }, true, false⟩ := by
  rw [show cNet429 a = NetBehavior.responds 429 [] "" from rfl,
    @processBatchItem_valid cParse cJson cItemA ⟨false, "h", none, "/"⟩ rfl rfl rfl]
  rfl

/-- C3 witness: with base delay 200 the second retry waits 400 ms. -/
theorem backoff_delay_exponential_witness :
    (retryDelays cParse cJson cNet429 cItemA 200 3 1)[2 - 1]? = some 400
    ∧ (400 : Nat) = 200 * 2 ^ (2 - 1) := by
  have htr : (retryDelays cParse cJson cNet429 cItemA 200 3 1)[2 - 1]? = some 400 := by
    rw [retryDelays_cons (cNet429_exec 1) (by exact ⟨rfl, by decide⟩),
      retryDelays_cons (cNet429_exec 2) (by exact ⟨rfl, by decide⟩)]
    norm_num
  exact ⟨htr, backoff_delay_exponential cParse cJson cNet429 cItemA 200 3 2 400
    (by decide) htr⟩

/-- C4: an item with a falsy `requestId` resolves immediately to a result
keyed `"unknown"` with status 400 and a descriptive error, with no network
request issued (`networkCalled = false`). -/
theorem missing_requestId_no_network (pu : String → Except String ParsedUrl)
    (jp : String → Option Js) (net : NetBehavior) (item : BatchItem)
    (h : jsTruthy item.requestId = false) :
    processBatchItem pu jp net item =
      Except.ok ⟨{ requestId := "unknown", status := 400, headers := none, body := none,
                   error := some "Missing requestId field" }, false, false⟩ := by
  have hu : orUnknown item.requestId = "unknown" := by
    cases hr : item.requestId with
    | none => rfl
    | some str =>
        rw [hr] at h
        simp only [jsTruthy, Bool.not_eq_false'] at h
        simp [orUnknown, h]
  unfold processBatchItem
  rw [h, hu]
  simp

/-- An item lacking the `requestId` field. -/
def cItemNoId : BatchItem :=
  { requestId := none, url := some "u", method := none, headers := none }

/-- C4 witness: the concrete id-less item resolves to the 400 result with
no network call, even though the network would answer. -/
theorem missing_requestId_no_network_witness :
    processBatchItem cParse cJson (NetBehavior.responds 200 [] "ok") cItemNoId =
      Except.ok ⟨{ requestId := "unknown", status := 400, headers := none, body := none,
                   error := some "Missing requestId field" }, false, false⟩ :=
  missing_requestId_no_network cParse cJson (NetBehavior.responds 200 [] "ok") cItemNoId rfl

/-- C5: a validated item whose outbound call hits the timeout is aborted
(`aborted = true`, the `proxyReq.destroy()` call) and resolves a synthetic
504 with error `"Request timeout"`; and from any reachable dispatcher state
the batch still runs to a terminal state holding every item's result (no
hang). -/
theorem timeout_synthetic_504 (pu : String → Except String ParsedUrl)
    (jp : String → Option Js) (item : BatchItem) (u : ParsedUrl)
    (h1 : jsTruthy item.requestId = true) (h2 : jsTruthy item.url = true)
    (h3 : pu (item.url.getD "") = Except.ok u) :
    processBatchItem pu jp NetBehavior.timesOut item =
      Except.ok ⟨{ requestId := item.requestId.getD "", status := 504, headers := none,
                   body := none, error := some "Request timeout" }, true, true⟩
    ∧ (∀ (n W : Nat) (f : Nat → BatchResult) (s : DState), 1 ≤ W →
        Relation.ReflTransGen (DStep n W f) initState s →
        ∃ t, Relation.ReflTransGen (DStep n W f) s t ∧ DTerminal W t
          ∧ ∀ i, i < n → t.results i = some (f i)) := by
  constructor
  · rw [processBatchItem_valid h1 h2 h3]
  · intro n W f s hW hreach
    obtain ⟨t, hst, htt⟩ :=
      exists_terminal (wMeasure n W s) s le_rfl (dinv_reachable hreach)
    have hinv_t := dinv_reachable (hreach.trans hst)
    exact ⟨t, hst, htt, terminal_results hinv_t htt hW⟩

/-- C5 witness: the concrete item "a" timing out yields the 504 aborted
outcome. -/
theorem timeout_synthetic_504_witness :
    processBatchItem cParse cJson NetBehavior.timesOut cItemA =
      Except.ok ⟨{ requestId := "a", status := 504, headers := none,
                   body := none, error := some "Request timeout" }, true, true⟩ :=
  (timeout_synthetic_504 cParse cJson cItemA ⟨false, "h", none, "/"⟩ rfl rfl rfl).1

/-- C6: a fault thrown while processing a validated item is caught and
becomes a 500 result carrying the fault message, and every other item of a
completed dispatch run still records its own independent result — the fault
never escapes `dispatch`. -/
theorem fault_isolated_500
    (pu : String → Except String ParsedUrl) (jp : String → Option Js)
    (nets : Nat → Nat → NetBehavior) (maxC maxR : Nat) (items : List BatchItem)
    (s : DState) (j : Nat) (msg : String) (u : ParsedUrl)
    (hne : items ≠ []) (hmc : 1 ≤ maxC)
    (h1 : jsTruthy (items[j]?.getD defaultItem).requestId = true)
    (h2 : jsTruthy (items[j]?.getD defaultItem).url = true)
    (h3 : pu ((items[j]?.getD defaultItem).url.getD "") = Except.ok u)
    (hthrow : nets j 1 = NetBehavior.throws msg)
    (hreach : Relation.ReflTransGen
      (DStep items.length (min maxC items.length) (dispatchResult pu jp nets maxR items))
      initState s)
    (hterm : DTerminal (min maxC items.length) s) :
    (dispatchResult pu jp nets maxR items j).status = 500
    ∧ (dispatchResult pu jp nets maxR items j).error
        = some ("Processing error: " ++ msg)
    ∧ ∀ i, i < items.length →
        s.results i = some (dispatchResult pu jp nets maxR items i) := by
  have herr : processBatchItem pu jp (nets j 1) (items[j]?.getD defaultItem)
      = Except.error msg := by
    rw [hthrow, processBatchItem_valid h1 h2 h3]
  have hret := retry_error_result maxR herr
  have hW : 1 ≤ min maxC items.length := le_min hmc (List.length_pos.mpr hne)
  refine ⟨?_, ?_, ?_⟩
  · unfold dispatchResult
    rw [hret]
  · unfold dispatchResult
    rw [hret]
  · exact terminal_results (dinv_reachable hreach) hterm hW

/-- C6 witness: in the concrete run, item 1 throws "boom" and ends as a 500
result with the message, while item 0 still records its own result. -/
theorem fault_isolated_500_witness :
    (dispatchResult cParse cJson cNets 3 cItems 1).status = 500
    ∧ (dispatchResult cParse cJson cNets 3 cItems 1).error
        = some ("Processing error: " ++ "boom")
    ∧ cS5.results 0 = some (dispatchResult cParse cJson cNets 3 cItems 0) := by
  have h := fault_isolated_500 cParse cJson cNets 1 3 cItems cS5 1 "boom"
    ⟨false, "h", none, "/"⟩ (by simp [cItems]) (by decide) rfl rfl rfl rfl cReach cTerm
  exact ⟨h.1, h.2.1, h.2.2 0 (by simp [cItems])⟩

/-- C7: the worker pool has exactly `min maxConcurrency n` workers (hence
at most `maxConcurrency` and at most `n`); the shared cursor only advances;
no index is ever claimed twice (the claim counter never exceeds 1, and no
two workers hold the same index at once); and in a completed run every
index in range was claimed exactly once and holds its item's result. -/
theorem worker_pool_exactly_once
    (pu : String → Except String ParsedUrl) (jp : String → Option Js)
    (nets : Nat → Nat → NetBehavior) (maxC maxR : Nat) (items : List BatchItem)
    (s : DState) (hne : items ≠ []) (hmc : 1 ≤ maxC)
    (hreach : Relation.ReflTransGen
      (DStep items.length (min maxC items.length) (dispatchResult pu jp nets maxR items))
      initState s) :
    min maxC items.length ≤ maxC
    ∧ min maxC items.length ≤ items.length
    ∧ (∀ i, s.claimCount i ≤ 1)
    ∧ (∀ w w' i, w < min maxC items.length → w' < min maxC items.length →
        s.workers w = WStatus.working i → s.workers w' = WStatus.working i → w = w')
    ∧ (∀ s2 s3, DStep items.length (min maxC items.length)
        (dispatchResult pu jp nets maxR items) s2 s3 → s2.cursor ≤ s3.cursor)
    ∧ (DTerminal (min maxC items.length) s →
        ∀ i, i < items.length →
          s.claimCount i = 1
          ∧ s.results i = some (dispatchResult pu jp nets maxR items i)) := by
  have hinv := dinv_reachable hreach
  refine ⟨min_le_left _ _, min_le_right _ _, ?_, ?_, ?_, ?_⟩
  · intro i
    rw [hinv.count_eq i]
    split_ifs <;> omega
  · exact fun w w' i hw hw' ha hb => hinv.working_uniq w w' i hw hw' ha hb
  · exact fun s2 s3 hstep => step_cursor_mono hstep
  · intro hterm i hi
    have hW : 1 ≤ min maxC items.length := le_min hmc (List.length_pos.mpr hne)
    have hcur := terminal_cursor hinv hterm hW
    refine ⟨?_, terminal_results hinv hterm hW i hi⟩
    rw [hinv.count_eq i, if_pos (by omega)]

/-- C7 witness: in the concrete completed run both indices were claimed
exactly once, and an out-of-range index never at all. -/
theorem worker_pool_exactly_once_witness :
    cS5.claimCount 0 = 1 ∧ cS5.claimCount 1 = 1 ∧ cS5.claimCount 5 ≤ 1 := by
  have h := worker_pool_exactly_once cParse cJson cNets 1 3 cItems cS5
    (by simp [cItems]) (by decide) cReach
  have ht := h.2.2.2.2.2 cTerm
  exact ⟨(ht 0 (by simp [cItems])).1, (ht 1 (by simp [cItems])).1, h.2.2.1 5⟩

/-- C8: (spec-modelled response augmenter) for an upstream gzip body
`enc B` and trailer `JSON(M)`, strategy `transform` produces a body that
decodes to exactly `B ++ JSON(M)`, and strategy `decode` produces those
same decompressed bytes with `Content-Encoding` absent. -/
theorem augment_roundtrip_gzip (enc dec : List Nat → List Nat)
    (hround : ∀ bs, dec (enc bs) = bs) (jsonEnc : RespEnvelope → List Nat)
    (M : RespEnvelope) (B : List Nat) :
    dec (transformStrategy enc dec "gzip" (enc B) (jsonEnc M)).body = B ++ jsonEnc M
    ∧ (decodeStrategy dec (enc B) (jsonEnc M)).body = B ++ jsonEnc M
    ∧ (decodeStrategy dec (enc B) (jsonEnc M)).contentEncoding = none := by
  refine ⟨?_, ?_, rfl⟩
  · simp [transformStrategy, hround]
  · simp [decodeStrategy, hround]

/-- The identity codec, standing in for a concrete gzip implementation. -/
def cCodec : List Nat → List Nat := fun bs => bs

/-- A concrete trailer serialization. -/
def cEnvBytes : RespEnvelope → List Nat := fun _ => [10]

/-- A concrete envelope. -/
def cEnv : RespEnvelope := { statusCode := 200, statusMessage := "OK", headers := [] }

/-- C8 witness: the round-trip at the identity codec on the body `[1, 2]`. -/
theorem augment_roundtrip_gzip_witness :
    cCodec (transformStrategy cCodec cCodec "gzip" (cCodec [1, 2]) (cEnvBytes cEnv)).body
        = [1, 2] ++ cEnvBytes cEnv
    ∧ (decodeStrategy cCodec (cCodec [1, 2]) (cEnvBytes cEnv)).body
        = [1, 2] ++ cEnvBytes cEnv
    ∧ (decodeStrategy cCodec (cCodec [1, 2]) (cEnvBytes cEnv)).contentEncoding = none :=
  augment_roundtrip_gzip cCodec cCodec (fun _ => rfl) cEnvBytes cEnv [1, 2]

/-- C9: the proxied body is modified only on a 2xx status when it parses as
a plain JSON object (not an array): then `requestKey = requestId` is added
to the object; a non-2xx status, an unparsable body, or a non-object parse
is returned unchanged. -/
theorem body_augment_requestKey (jp : String → Option Js) (status : Nat) (body : String)
    (rid : String) :
    (∀ fields, 200 ≤ status → status < 300 → jp body = some (Js.obj fields) →
        augmentBody jp status body rid
          = BodyVal.json (Js.obj (setField fields "requestKey" (Js.str rid)))
        ∧ jsGetField (setField fields "requestKey" (Js.str rid)) "requestKey"
            = some (Js.str rid))
    ∧ (¬ (200 ≤ status ∧ status < 300) → augmentBody jp status body rid = BodyVal.str body)
    ∧ (jp body = none → augmentBody jp status body rid = BodyVal.str body)
    ∧ (∀ j, jp body = some j → isPlainJsObject j = false →
        augmentBody jp status body rid = BodyVal.str body) := by
  refine ⟨?_, ?_, ?_, ?_⟩
  · intro fields hlo hhi hparse
    refine ⟨?_, jsGetField_setField "requestKey" (Js.str rid) fields⟩
    unfold augmentBody
    rw [if_pos ⟨hlo, hhi⟩, hparse]
    rfl
  · intro hno
    unfold augmentBody
    rw [if_neg hno]
  · intro hparse
    unfold augmentBody
    by_cases h2 : 200 ≤ status ∧ status < 300
    · rw [if_pos h2, hparse]
    · rw [if_neg h2]
  · intro j hparse hobj
    unfold augmentBody
    by_cases h2 : 200 ≤ status ∧ status < 300
    · rw [if_pos h2, hparse]
      dsimp only
      rw [if_neg]
      simp [hobj]
    · rw [if_neg h2]

/-- A `JSON.parse` oracle recognising the body "x" as the empty object. -/
def cJsonObj : String → Option Js := fun s => if s = "x" then some (Js.obj []) else none

/-- C9 witness: a 200 response whose body parses as the empty object gains
the `requestKey` field. -/
theorem body_augment_requestKey_witness :
    augmentBody cJsonObj 200 "x" "r7"
      = BodyVal.json (Js.obj [("requestKey", Js.str "r7")]) := by
  have h := ((body_augment_requestKey cJsonObj 200 "x" "r7").1 [] (by decide) (by decide)
    rfl).1
  exact h

/-- C10: the serialized batch response is one object keyed by requestId;
the value under a key is the formatting of the last result carrying that
requestId (a later result overwrites an earlier one with the same key), so
the object can have fewer entries than the input batch. -/
theorem format_results_last_wins :
    (∀ rs k, jsLookup (formatResults rs) k = (lastWith rs k).map formatResult)
    ∧ (∃ rs : List BatchResult, (formatResults rs).length < rs.length) := by
  constructor
  · intro rs k
    have h := formatResults_loop rs [] k
    unfold formatResults
    rw [h]
    cases lastWith rs k <;> simp [jsLookup]
  · exact ⟨[cR429, cR429], by decide⟩

end ProxyService
